import Mathlib

/-!
Verification of the game/review/user API and newsletter service.

The data model and its relationship declarations are translated from
`src/app/models.py`; the route handlers from `src/app/app.py` and
`src/server/app.py`.  The `sqlalchemy_serializer` traversal behind
`to_dict` and the JSON wire codec behind `jsonify` are external
libraries whose sources are not part of the repository, so they are
modelled from the specification (each such definition says so in its
doc comment).
-/

/-- A JSON-compatible value: the codomain of serialization. -/
inductive JValue where
  | null : JValue
  | bool : Bool → JValue
  | int : Int → JValue
  | str : String → JValue
  | arr : List JValue → JValue
  | obj : List (String × JValue) → JValue
deriving Repr

/-- Field lookup in a serialized mapping (first match wins). -/
def getF : List (String × JValue) → String → Option JValue
  | [], _ => none
  | (k, v) :: rest, key => if k = key then some v else getF rest key

/-- Serialize an optional timestamp column: SQL `NULL` becomes JSON null,
a set value its string rendering. -/
def optStr : Option String → JValue
  | none => JValue.null
  | some s => JValue.str s

/-! ## The data model, from `src/app/models.py` -/

/-- Row of the `games` table: columns `id`, `title`, `genre`, `platform`,
`price`, `created_at`, `updated_at`. -/
structure Game where
  id : Nat
  title : String
  genre : String
  platform : String
  price : Int
  created_at : Option String
  updated_at : Option String

/-- Row of the `reviews` table: columns `id`, `score`, `comment`,
`created_at`, `updated_at`, and foreign keys `game_id`, `user_id`. -/
structure Review where
  id : Nat
  score : Int
  comment : String
  created_at : Option String
  updated_at : Option String
  game_id : Nat
  user_id : Nat

/-- Row of the `users` table: columns `id`, `name`, `created_at`,
`updated_at`. -/
structure User where
  id : Nat
  name : String
  created_at : Option String
  updated_at : Option String

/-- The materialized database: the three tables. -/
structure DB where
  games : List Game
  reviews : List Review
  users : List User

/-- `Game.reviews`, the one-to-many side of
`db.relationship('Review', backref='game')`. -/
def gameReviews (db : DB) (g : Game) : List Review :=
  db.reviews.filter (fun r => r.game_id == g.id)

/-- `User.reviews`, the one-to-many side of
`db.relationship('Review', backref='user')`. -/
def userReviews (db : DB) (u : User) : List Review :=
  db.reviews.filter (fun r => r.user_id == u.id)

/-- `Review.game`, the backref resolved through `game_id`. -/
def reviewGame (db : DB) (r : Review) : Option Game :=
  db.games.find? (fun g => g.id == r.game_id)

/-- `Review.user`, the backref resolved through `user_id`. -/
def reviewUser (db : DB) (r : Review) : Option User :=
  db.users.find? (fun u => u.id == r.user_id)

/-- An entity instance handed to the serializer. -/
inductive Entity where
  | game : Game → Entity
  | review : Review → Entity
  | user : User → Entity

/-- A relationship's value: a to-one reference (possibly unresolved) or a
to-many collection. -/
inductive RelVal where
  | one : Option Entity → RelVal
  | many : List Entity → RelVal

/-- The scalar columns of an entity, in declaration order. -/
def columns : Entity → List (String × JValue)
  | .game g =>
      [("id", .int g.id), ("title", .str g.title), ("genre", .str g.genre),
       ("platform", .str g.platform), ("price", .int g.price),
       ("created_at", optStr g.created_at), ("updated_at", optStr g.updated_at)]
  | .review r =>
      [("id", .int r.id), ("score", .int r.score), ("comment", .str r.comment),
       ("created_at", optStr r.created_at), ("updated_at", optStr r.updated_at),
       ("game_id", .int r.game_id), ("user_id", .int r.user_id)]
  | .user u =>
      [("id", .int u.id), ("name", .str u.name),
       ("created_at", optStr u.created_at), ("updated_at", optStr u.updated_at)]

/-- The declared relationships of an entity, resolved against the database. -/
def rels (db : DB) : Entity → List (String × RelVal)
  | .game g => [("reviews", .many ((gameReviews db g).map .review))]
  | .review r =>
      [("game", .one ((reviewGame db r).map .game)),
       ("user", .one ((reviewUser db r).map .user))]
  | .user u => [("reviews", .many ((userReviews db u).map .review))]

/-- `Game.serialize_rules = ('-reviews.game',)`, as suffix paths. -/
def gameRules : List (List String) := [["reviews", "game"]]

/-- `Review.serialize_rules = ('-game.reviews', '-user.reviews')`. -/
def reviewRules : List (List String) := [["game", "reviews"], ["user", "reviews"]]

/-- `User.serialize_rules = ('-reviews.user',)`. -/
def userRules : List (List String) := [["reviews", "user"]]

/-- The exclusion rules each model class declares. -/
def serialize_rules : Entity → List (List String)
  | .game _ => gameRules
  | .review _ => reviewRules
  | .user _ => userRules

/-! ## The serializer, modelled from the spec -/

/-- A field is excluded at the current node when some rule path has been
consumed down to exactly that field name. -/
def isExcluded (rules : List (List String)) (fld : String) : Bool :=
  rules.contains [fld]

/-- Descending into relationship `fld` consumes one segment from every rule
path that starts with `fld` and still has further segments to give. -/
def forkRules (rules : List (List String)) (fld : String) : List (List String) :=
  rules.filterMap (fun p =>
    match p with
    | a :: b :: restp => if a = fld then some (b :: restp) else none
    | _ => none)

/-- Option-valued traversal of a list, failing as soon as one element does. -/
def seqOpt {α β : Type} (g : α → Option β) : List α → Option (List β)
  | [] => some []
  | x :: xs =>
      match g x, seqOpt g xs with
      | some y, some ys => some (y :: ys)
      | _, _ => none

/-- Serialize one non-excluded relationship field: a to-many collection
becomes a sequence, an unresolved to-one reference becomes null, and a
resolved reference recurses through `descend` with the rule prefix
consumed. -/
def serRelField (descend : List (List String) → Entity → Option JValue)
    (rules : List (List String)) (kv : String × RelVal) : Option (String × JValue) :=
  (match kv.2 with
   | RelVal.one none => some JValue.null
   | RelVal.one (some e2) => descend (forkRules rules kv.1) e2
   | RelVal.many es =>
       (seqOpt (fun e2 => descend (forkRules rules kv.1) e2) es).map .arr
  ).map (fun j => (kv.1, j))

/-- Modelled from the spec: the `SerializerMixin.to_dict` traversal of
`sqlalchemy_serializer` (the library's source is not part of the
repository).  Every scalar column not excluded at the current path is
emitted; every relationship not excluded is recursively serialized with
the current rule prefix consumed and the related entity's own
`serialize_rules` merged in.  `fuel` counts remaining
relationship-nesting depth: it decreases only when descending through
a relationship edge. -/
def toDictAux : Nat → DB → List (List String) → Entity → Option JValue
  | 0, _, _, _ => none
  | fuel + 1, db, rules0, e =>
      let rules := rules0 ++ serialize_rules e
      let sc := (columns e).filter (fun kv => !(isExcluded rules kv.1))
      let rf := (rels db e).filter (fun kv => !(isExcluded rules kv.1))
      match seqOpt (serRelField (toDictAux fuel db) rules) rf with
      | none => none
      | some fields => some (.obj (sc ++ fields))

/-- Longest declared rule path, over a rule set. -/
def ruleLen (rs : List (List String)) : Nat :=
  rs.foldr (fun p m => max p.length m) 0

/-- Nesting-depth budget derived from the declared rule sets alone:
one more than the longest exclusion path any model declares. -/
def fuelBound : Nat :=
  1 + max (ruleLen gameRules) (max (ruleLen reviewRules) (ruleLen userRules))

/-- `to_dict` as the routes call it: the traversal started with no consumed
prefix and the rule-derived depth budget. -/
def to_dict (db : DB) (e : Entity) : Option JValue :=
  toDictAux fuelBound db [] e

theorem fuelBound_eq : fuelBound = 3 := rfl

/-! ## Closed forms of the traversal on each entity type -/

/-- A `User` serialized after its `reviews` relationship was cut. -/
def userShallow (u : User) : JValue := .obj (columns (.user u))
def gameShallow (g : Game) : JValue := .obj (columns (.game g))

theorem toDictAux_user_cut (fuel : Nat) (db : DB) (u : User) :
    toDictAux (fuel + 1) db [["reviews"]] (.user u) = some (userShallow u) := by
  simp +decide [toDictAux, serialize_rules, userRules, rels, columns, isExcluded, seqOpt, userShallow]

theorem toDictAux_game_cut (fuel : Nat) (db : DB) (g : Game) :
    toDictAux (fuel + 1) db [["reviews"]] (.game g) = some (gameShallow g) := by
  simp +decide [toDictAux, serialize_rules, gameRules, rels, columns, isExcluded, seqOpt, gameShallow]

def reviewInGame (db : DB) (r : Review) : JValue :=
  .obj (columns (.review r) ++ [("user", (reviewUser db r).elim JValue.null userShallow)])

theorem toDictAux_review_from_game (fuel : Nat) (db : DB) (r : Review) :
    toDictAux (fuel + 2) db [["game"]] (.review r) = some (reviewInGame db r) := by
  cases h : reviewUser db r with
  | none =>
      simp +decide [toDictAux, serialize_rules, reviewRules, rels, isExcluded,
        forkRules, seqOpt, serRelField, reviewInGame, columns, h]
  | some u =>
      simp +decide [toDictAux, serialize_rules, reviewRules, rels, isExcluded,
        forkRules, seqOpt, serRelField, reviewInGame, columns, h, toDictAux_user_cut,
        userShallow]

theorem seqOpt_congr_map {α β γ : Type} (g : β → Option γ) (h : α → β) :
    ∀ l : List α, seqOpt g (l.map h) = seqOpt (fun x => g (h x)) l
  | [] => rfl
  | x :: xs => by simp [seqOpt, seqOpt_congr_map g h xs]

theorem seqOpt_all_some {α β : Type} (g : α → Option β) (m : α → β) :
    ∀ l : List α, (∀ x ∈ l, g x = some (m x)) → seqOpt g l = some (l.map m)
  | [], _ => rfl
  | x :: xs, hall => by
      have hx := hall x (List.mem_cons_self x xs)
      have hxs := seqOpt_all_some g m xs (fun y hy => hall y (List.mem_cons_of_mem x hy))
      simp [seqOpt, hx, hxs]

def gameDict (db : DB) (g : Game) : JValue :=
  .obj (columns (.game g) ++ [("reviews", .arr ((gameReviews db g).map (reviewInGame db)))])

theorem toDictAux_step (fuel : Nat) (db : DB) (rules0 : List (List String)) (e : Entity) :
    toDictAux (fuel + 1) db rules0 e =
      (match seqOpt (serRelField (toDictAux fuel db) (rules0 ++ serialize_rules e))
          ((rels db e).filter
            (fun kv => !(isExcluded (rules0 ++ serialize_rules e) kv.1))) with
       | none => none
       | some fields =>
           some (.obj ((columns e).filter
             (fun kv => !(isExcluded (rules0 ++ serialize_rules e) kv.1)) ++ fields))) := rfl

theorem to_dict_game_eq (db : DB) (g : Game) :
    to_dict db (.game g) = some (gameDict db g) := by
  have hmany : seqOpt (fun e2 => toDictAux 2 db [["game"]] e2)
      ((gameReviews db g).map .review)
      = some ((gameReviews db g).map (reviewInGame db)) := by
    rw [seqOpt_congr_map]
    exact seqOpt_all_some _ _ _ (fun r _ => toDictAux_review_from_game 0 db r)
  rw [to_dict, fuelBound_eq, show (3 : Nat) = 2 + 1 from rfl, toDictAux_step]
  simp +decide [serialize_rules, gameRules, rels, columns, isExcluded, forkRules, seqOpt,
    serRelField, hmany, gameDict]

def reviewInUser (db : DB) (r : Review) : JValue :=
  .obj (columns (.review r) ++ [("game", (reviewGame db r).elim JValue.null gameShallow)])

theorem toDictAux_review_from_user (fuel : Nat) (db : DB) (r : Review) :
    toDictAux (fuel + 2) db [["user"]] (.review r) = some (reviewInUser db r) := by
  cases h : reviewGame db r with
  | none =>
      simp +decide [toDictAux, serialize_rules, reviewRules, rels, isExcluded,
        forkRules, seqOpt, serRelField, reviewInUser, columns, h]
  | some g =>
      simp +decide [toDictAux, serialize_rules, reviewRules, rels, isExcluded,
        forkRules, seqOpt, serRelField, reviewInUser, columns, h, toDictAux_game_cut,
        gameShallow]

def reviewDict (db : DB) (r : Review) : JValue :=
  .obj (columns (.review r) ++
    [("game", (reviewGame db r).elim JValue.null gameShallow),
     ("user", (reviewUser db r).elim JValue.null userShallow)])

theorem to_dict_review_eq (db : DB) (r : Review) :
    to_dict db (.review r) = some (reviewDict db r) := by
  rw [to_dict, fuelBound_eq, show (3 : Nat) = 2 + 1 from rfl, toDictAux_step]
  cases hg : reviewGame db r with
  | none =>
      cases hu : reviewUser db r with
      | none =>
          simp +decide [serialize_rules, reviewRules, rels, columns, isExcluded, forkRules,
            seqOpt, serRelField, reviewDict, hg, hu]
      | some u =>
          simp +decide [serialize_rules, reviewRules, rels, columns, isExcluded, forkRules,
            seqOpt, serRelField, reviewDict, hg, hu, toDictAux_user_cut, userShallow]
  | some g =>
      cases hu : reviewUser db r with
      | none =>
          simp +decide [serialize_rules, reviewRules, rels, columns, isExcluded, forkRules,
            seqOpt, serRelField, reviewDict, hg, hu, toDictAux_game_cut, gameShallow]
      | some u =>
          simp +decide [serialize_rules, reviewRules, rels, columns, isExcluded, forkRules,
            seqOpt, serRelField, reviewDict, hg, hu, toDictAux_game_cut, toDictAux_user_cut,
            gameShallow, userShallow]

def userDict (db : DB) (u : User) : JValue :=
  .obj (columns (.user u) ++ [("reviews", .arr ((userReviews db u).map (reviewInUser db)))])

theorem to_dict_user_eq (db : DB) (u : User) :
    to_dict db (.user u) = some (userDict db u) := by
  have hmany : seqOpt (fun e2 => toDictAux 2 db [["user"]] e2)
      ((userReviews db u).map .review)
      = some ((userReviews db u).map (reviewInUser db)) := by
    rw [seqOpt_congr_map]
    exact seqOpt_all_some _ _ _ (fun r _ => toDictAux_review_from_user 0 db r)
  rw [to_dict, fuelBound_eq, show (3 : Nat) = 2 + 1 from rfl, toDictAux_step]
  simp +decide [serialize_rules, userRules, rels, columns, isExcluded, forkRules, seqOpt,
    serRelField, hmany, userDict]

/-! ## Serialization as a state transformer (frame condition) -/

/-- State-threading `seqOpt`: the database is passed through every element
in order, so any write one element performed would be visible to the next. -/
def seqOptSt {α β σ : Type} (g : α → σ → Option β × σ) : List α → σ → Option (List β) × σ
  | [], s => (some [], s)
  | x :: xs, s =>
      match g x s with
      | (some y, s1) =>
          match seqOptSt g xs s1 with
          | (some ys, s2) => (some (y :: ys), s2)
          | (none, s2) => (none, s2)
      | (none, s1) => (none, s1)

/-- State-threading form of `serRelField`. -/
def serRelFieldSt (descend : List (List String) → Entity → DB → Option JValue × DB)
    (rules : List (List String)) (kv : String × RelVal) (db : DB) :
    Option (String × JValue) × DB :=
  let step : Option JValue × DB :=
    match kv.2 with
    | RelVal.one none => (some JValue.null, db)
    | RelVal.one (some e2) => descend (forkRules rules kv.1) e2 db
    | RelVal.many es =>
        match seqOptSt (fun e2 => descend (forkRules rules kv.1) e2) es db with
        | (some js, db2) => (some (.arr js), db2)
        | (none, db2) => (none, db2)
  (step.1.map (fun j => (kv.1, j)), step.2)

/-- The serializer written as an explicit state transformer over the entity
graph: every step receives the database produced by the previous step, so a
mutation anywhere in the traversal would propagate.  The modelled library
code never writes, which `toDictAuxSt_frame` below makes precise. -/
def toDictAuxSt : Nat → List (List String) → Entity → DB → Option JValue × DB
  | 0, _, _, db => (none, db)
  | fuel + 1, rules0, e, db =>
      let rules := rules0 ++ serialize_rules e
      match seqOptSt (serRelFieldSt (toDictAuxSt fuel) rules)
          ((rels db e).filter (fun kv => !(isExcluded rules kv.1))) db with
      | (none, db2) => (none, db2)
      | (some fields, db2) =>
          (some (.obj ((columns e).filter (fun kv => !(isExcluded rules kv.1)) ++ fields)),
           db2)

theorem seqOpt_congr {α β : Type} (g1 g2 : α → Option β) (h : ∀ x, g1 x = g2 x) :
    ∀ l : List α, seqOpt g1 l = seqOpt g2 l := by
  intro l
  have : g1 = g2 := funext h
  rw [this]

theorem seqOptSt_frozen {α β σ : Type} (gst : α → σ → Option β × σ) (s : σ)
    (h : ∀ x, gst x s = ((gst x s).1, s)) :
    ∀ l : List α, seqOptSt gst l s = (seqOpt (fun x => (gst x s).1) l, s)
  | [] => rfl
  | x :: xs => by
      have hx := h x
      cases hy : (gst x s).1 with
      | none =>
          rw [hy] at hx
          simp only [seqOptSt, seqOpt, hx, hy]
      | some y =>
          rw [hy] at hx
          simp only [seqOptSt, seqOpt, hx, hy, seqOptSt_frozen gst s h xs]
          cases seqOpt (fun b => (gst b s).1) xs <;> rfl

theorem toDictAuxSt_eq :
    ∀ (fuel : Nat) (rules0 : List (List String)) (e : Entity) (db : DB),
      toDictAuxSt fuel rules0 e db = (toDictAux fuel db rules0 e, db) := by
  intro fuel
  induction fuel with
  | zero => intro rules0 e db; rfl
  | succ fuel ih =>
      intro rules0 e db
      have hfield : ∀ rules kv,
          serRelFieldSt (toDictAuxSt fuel) rules kv db
            = (serRelField (toDictAux fuel db) rules kv, db) := by
        intro rules kv
        rw [serRelFieldSt, serRelField]
        cases kv with
        | mk fld rv =>
            cases rv with
            | one oe =>
                cases oe with
                | none => rfl
                | some e2 => simp [ih]
            | many es =>
                have hfz := seqOptSt_frozen
                  (fun e2 => toDictAuxSt fuel (forkRules rules fld) e2) db
                  (fun e2 => by simp [ih]) es
                have hinner : seqOpt
                    (fun e2 => (toDictAuxSt fuel (forkRules rules fld) e2 db).1) es
                    = seqOpt (fun e2 => toDictAux fuel db (forkRules rules fld) e2) es :=
                  seqOpt_congr _ _ (fun e2 => by simp [ih]) es
                simp only [hfz, hinner]
                cases seqOpt (fun e2 => toDictAux fuel db (forkRules rules fld) e2) es with
                | none => rfl
                | some js => rfl
      rw [toDictAuxSt, toDictAux]
      have hfz := seqOptSt_frozen
        (serRelFieldSt (toDictAuxSt fuel) (rules0 ++ serialize_rules e)) db
        (fun kv => by simp [hfield])
        ((rels db e).filter (fun kv => !(isExcluded (rules0 ++ serialize_rules e) kv.1)))
      have hcongr : seqOpt
          (fun kv => (serRelFieldSt (toDictAuxSt fuel) (rules0 ++ serialize_rules e) kv db).1)
          ((rels db e).filter (fun kv => !(isExcluded (rules0 ++ serialize_rules e) kv.1)))
          = seqOpt (serRelField (toDictAux fuel db) (rules0 ++ serialize_rules e))
            ((rels db e).filter (fun kv => !(isExcluded (rules0 ++ serialize_rules e) kv.1))) :=
        seqOpt_congr _ _ (fun kv => by simp [hfield]) _
      rw [hfz, hcongr]
      cases seqOpt (serRelField (toDictAux fuel db) (rules0 ++ serialize_rules e))
          ((rels db e).filter (fun kv => !(isExcluded (rules0 ++ serialize_rules e) kv.1))) with
      | none => rfl
      | some fields => rfl

/-! ## The JSON wire codec, modelled from the spec -/

def isDig (c : Char) : Bool := '0' ≤ c && c ≤ '9'

def digitChr (d : Nat) : Char := Char.ofNat (48 + d)

def chrVal (c : Char) : Nat := c.toNat - 48

/-- Decimal character rendering of a natural number (big-endian). -/
def natChars (n : Nat) : List Char :=
  if n = 0 then ['0'] else ((Nat.digits 10 n).map digitChr).reverse

/-- Character rendering of an integer: optional minus sign, then digits. -/
def intChars (i : Int) : List Char :=
  if i < 0 then '-' :: natChars i.natAbs else natChars i.toNat

/-- JSON escaping of one string character. -/
def escChr (c : Char) : List Char :=
  if c = '"' then ['\\', '"']
  else if c = '\\' then ['\\', '\\']
  else if c = '\n' then ['\\', 'n']
  else if c = '\t' then ['\\', 't']
  else if c = '\r' then ['\\', 'r']
  else [c]

/-- Escape a whole string body. -/
def escBody : List Char → List Char
  | [] => []
  | c :: cs => escChr c ++ escBody cs

mutual
/-- Modelled from the spec: the JSON text encoding (`jsonify` / `json.dumps`,
whose source is not part of the repository), with compact separators. -/
def printV : JValue → List Char
  | .int i => intChars i
  | .str s => '"' :: (escBody s.data ++ ['"'])
  | .null => ['n', 'u', 'l', 'l']
  | .arr es => '[' :: (printItems es ++ [']'])
  | .bool true => ['t', 'r', 'u', 'e']
  | .obj ms => '{' :: (printPairs ms ++ ['}'])
  | .bool false => ['f', 'a', 'l', 's', 'e']
/-- Comma-separated rendering of array elements. -/
def printItems : List JValue → List Char
  | [] => []
  | [e] => printV e
  | e :: e2 :: es => printV e ++ ',' :: printItems (e2 :: es)
/-- Comma-separated rendering of object members. -/
def printPairs : List (String × JValue) → List Char
  | [] => []
  | [(k, v)] => '"' :: (escBody k.data ++ '"' :: ':' :: printV v)
  | (k, v) :: p :: ms =>
      '"' :: (escBody k.data ++ '"' :: ':' :: (printV v ++ ',' :: printPairs (p :: ms)))
end

/-- The serialized text a route responds with. -/
def dumps (j : JValue) : String := String.mk (printV j)

/-- Digit lookup in a parse stream. -/
def readDigits : List Char → List Char × List Char
  | [] => ([], [])
  | c :: cs =>
      if isDig c then
        let p := readDigits cs
        (c :: p.1, p.2)
      else ([], c :: cs)

/-- Value of a big-endian digit-character run. -/
def digitsVal (ds : List Char) : Nat :=
  ds.foldl (fun a c => a * 10 + chrVal c) 0

theorem digitChr_spec (d : Nat) (h : d < 10) :
    chrVal (digitChr d) = d ∧ isDig (digitChr d) = true := by
  interval_cases d <;> exact ⟨by decide, by decide⟩

theorem digitsVal_append_one (ds : List Char) (c : Char) :
    digitsVal (ds ++ [c]) = digitsVal ds * 10 + chrVal c := by
  simp [digitsVal, List.foldl_append]

theorem digitsVal_of_digits :
    ∀ L : List Nat, (∀ d ∈ L, d < 10) →
      digitsVal ((L.map digitChr).reverse) = Nat.ofDigits 10 L
  | [], _ => by simp [digitsVal, Nat.ofDigits]
  | d :: L, h => by
      have hd := (digitChr_spec d (h d (List.mem_cons_self d L))).1
      have ih := digitsVal_of_digits L (fun x hx => h x (List.mem_cons_of_mem d hx))
      simp only [List.map_cons, List.reverse_cons, digitsVal_append_one, ih, hd,
        Nat.ofDigits_cons]
      omega

theorem natChars_digits (n : Nat) : ∀ c ∈ natChars n, isDig c = true := by
  intro c hc
  rw [natChars] at hc
  by_cases h : n = 0
  · simp [h] at hc
    subst hc; decide
  · simp only [if_neg h, List.mem_reverse, List.mem_map] at hc
    obtain ⟨d, hd, rfl⟩ := hc
    exact (digitChr_spec d (Nat.digits_lt_base (by norm_num) hd)).2

theorem natChars_ne_nil (n : Nat) : natChars n ≠ [] := by
  rw [natChars]
  by_cases h : n = 0
  · simp [h]
  · simp only [if_neg h]
    simp [Nat.digits_ne_nil_iff_ne_zero, h]

theorem digitsVal_natChars (n : Nat) : digitsVal (natChars n) = n := by
  rw [natChars]
  by_cases h : n = 0
  · simp [h]; decide
  · rw [if_neg h, digitsVal_of_digits _ (fun d hd => Nat.digits_lt_base (by norm_num) hd),
      Nat.ofDigits_digits]

/-- A parse stream that cannot extend a digit run: empty or headed by a
non-digit.  Every delimiter the printer emits after a number qualifies. -/
def numStop : List Char → Bool
  | [] => true
  | c :: _ => !(isDig c)

theorem readDigits_stop (rest : List Char) (h : numStop rest = true) :
    readDigits rest = ([], rest) := by
  cases rest with
  | nil => rfl
  | cons c t =>
      simp only [numStop, Bool.not_eq_true'] at h
      simp [readDigits, h]

theorem readDigits_run :
    ∀ ds : List Char, (∀ c ∈ ds, isDig c = true) →
      ∀ rest : List Char, numStop rest = true →
        readDigits (ds ++ rest) = (ds, rest)
  | [], _, rest, hrest => by simpa using readDigits_stop rest hrest
  | c :: ds, h, rest, hrest => by
      have hc := h c (List.mem_cons_self c ds)
      have ih := readDigits_run ds (fun x hx => h x (List.mem_cons_of_mem c hx)) rest hrest
      simp [readDigits, hc, ih]

/-- Unescape one escaped character. -/
def unescChr (c : Char) : Option Char :=
  if c = '"' then some '"'
  else if c = '\\' then some '\\'
  else if c = 'n' then some '\n'
  else if c = 't' then some '\t'
  else if c = 'r' then some '\r'
  else none

/-- Read a string body after the opening quote, undoing escapes, up to the
closing quote. -/
def readStr : List Char → Option (List Char × List Char)
  | [] => none
  | '"' :: rest => some ([], rest)
  | '\\' :: c :: rest =>
      match unescChr c with
      | none => none
      | some ch =>
          match readStr rest with
          | none => none
          | some (s, r) => some (ch :: s, r)
  | c :: rest =>
      match readStr rest with
      | none => none
      | some (s, r) => some (c :: s, r)

theorem readStr_escBody :
    ∀ (cs rest : List Char), readStr (escBody cs ++ '"' :: rest) = some (cs, rest)
  | [], rest => by simp [escBody, readStr]
  | c :: cs, rest => by
      have ih := readStr_escBody cs rest
      by_cases h1 : c = '"'
      · subst h1; simp [escBody, escChr, readStr, unescChr, ih]
      · by_cases h2 : c = '\\'
        · subst h2; simp [escBody, escChr, readStr, unescChr, ih]
        · by_cases h3 : c = '\n'
          · subst h3; simp [escBody, escChr, readStr, unescChr, ih]
          · by_cases h4 : c = '\t'
            · subst h4; simp [escBody, escChr, readStr, unescChr, ih]
            · by_cases h5 : c = '\r'
              · subst h5; simp [escBody, escChr, readStr, unescChr, ih]
              · simp only [escBody, escChr, if_neg h1, if_neg h2, if_neg h3, if_neg h4,
                  if_neg h5, List.singleton_append, List.cons_append]
                rw [readStr.eq_def]
                simp [h1, h2, ih]

mutual
/-- Modelled from the spec: JSON text decoding (`json.loads`, whose source is
not part of the repository), fuelled for totality. -/
def parseV : Nat → List Char → Option (JValue × List Char)
  | 0, _ => none
  | fuel + 1, cs =>
      match cs with
      | 'n' :: 'u' :: 'l' :: 'l' :: r => some (.null, r)
      | 't' :: 'r' :: 'u' :: 'e' :: r => some (.bool true, r)
      | 'f' :: 'a' :: 'l' :: 's' :: 'e' :: r => some (.bool false, r)
      | '"' :: r =>
          match readStr r with
          | some (s, r2) => some (.str (String.mk s), r2)
          | none => none
      | '[' :: ']' :: r => some (.arr [], r)
      | '[' :: r =>
          match parseItems fuel r with
          | some (es, r2) => some (.arr es, r2)
          | none => none
      | '{' :: '}' :: r => some (.obj [], r)
      | '{' :: r =>
          match parsePairs fuel r with
          | some (ms, r2) => some (.obj ms, r2)
          | none => none
      | '-' :: r =>
          match readDigits r with
          | ([], _) => none
          | (d :: ds, r2) => some (.int (-(digitsVal (d :: ds) : Int)), r2)
      | c :: r =>
          if isDig c then
            some (.int ((digitsVal (readDigits (c :: r)).1 : Nat) : Int),
              (readDigits (c :: r)).2)
          else none
      | [] => none
/-- Parse one-or-more comma-separated array elements up to `]`. -/
def parseItems : Nat → List Char → Option (List JValue × List Char)
  | 0, _ => none
  | fuel + 1, cs =>
      match parseV fuel cs with
      | none => none
      | some (v, r) =>
          match r with
          | ']' :: r2 => some ([v], r2)
          | ',' :: r2 =>
              match parseItems fuel r2 with
              | none => none
              | some (vs, r3) => some (v :: vs, r3)
          | _ => none
/-- Parse one-or-more comma-separated object members up to a closing brace. -/
def parsePairs : Nat → List Char → Option (List (String × JValue) × List Char)
  | 0, _ => none
  | fuel + 1, cs =>
      match cs with
      | '"' :: r =>
          match readStr r with
          | none => none
          | some (k, r1) =>
              match r1 with
              | ':' :: r2 =>
                  match parseV fuel r2 with
                  | none => none
                  | some (v, r3) =>
                      match r3 with
                      | '}' :: r4 => some ([(String.mk k, v)], r4)
                      | ',' :: r4 =>
                          match parsePairs fuel r4 with
                          | none => none
                          | some (ms, r5) => some ((String.mk k, v) :: ms, r5)
                      | _ => none
              | _ => none
      | _ => none
end

/-- Modelled from the spec: decode a complete JSON document, requiring the
whole input to be consumed. -/
def loads (s : String) : Option JValue :=
  match parseV (s.data.length + 1) s.data with
  | some (j, []) => some j
  | _ => none

theorem isDig_ne {c : Char} (hc : isDig c = true) (ch : Char) (hch : isDig ch = false) :
    ¬(c = ch) := by
  intro he
  subst he
  rw [hch] at hc
  exact Bool.noConfusion hc

theorem natChars_head (n : Nat) :
    ∃ c t, natChars n = c :: t ∧ isDig c = true := by
  cases h : natChars n with
  | nil => exact absurd h (natChars_ne_nil n)
  | cons c t =>
      refine ⟨c, t, rfl, natChars_digits n c ?_⟩
      rw [h]
      exact List.mem_cons_self c t

theorem parseV_digit_branch (fuel : Nat) (c : Char) (t : List Char) (hc : isDig c = true) :
    parseV (fuel + 1) (c :: t)
      = some (.int ((digitsVal (readDigits (c :: t)).1 : Nat) : Int),
          (readDigits (c :: t)).2) := by
  have h1 := isDig_ne hc 'n' (by decide)
  have h2 := isDig_ne hc 't' (by decide)
  have h3 := isDig_ne hc 'f' (by decide)
  have h4 := isDig_ne hc '"' (by decide)
  have h5 := isDig_ne hc '[' (by decide)
  have h6 := isDig_ne hc '{' (by decide)
  have h7 := isDig_ne hc '-' (by decide)
  simp [parseV, h1, h2, h3, h4, h5, h6, h7, hc]

theorem parseV_int (i : Int) (fuel : Nat) (rest : List Char) (hrest : numStop rest = true) :
    parseV (fuel + 1) (intChars i ++ rest) = some (.int i, rest) := by
  by_cases hneg : i < 0
  · obtain ⟨c, t, hct, hdig⟩ := natChars_head i.natAbs
    have hrun : readDigits (natChars i.natAbs ++ rest) = (natChars i.natAbs, rest) :=
      readDigits_run _ (natChars_digits _) rest hrest
    rw [intChars, if_pos hneg, List.cons_append]
    simp only [parseV]
    rw [hrun, hct]
    have hval : digitsVal (c :: t) = i.natAbs := by
      rw [← hct, digitsVal_natChars]
    simp only [hval]
    have hi : -(i.natAbs : Int) = i := by omega
    rw [hi]
  · obtain ⟨c, t, hct, hdig⟩ := natChars_head i.toNat
    have hrun : readDigits (natChars i.toNat ++ rest) = (natChars i.toNat, rest) :=
      readDigits_run _ (natChars_digits _) rest hrest
    rw [intChars, if_neg hneg, hct, List.cons_append]
    rw [hct, List.cons_append] at hrun
    rw [parseV_digit_branch fuel c (t ++ rest) hdig, hrun]
    have hval : digitsVal (c :: t) = i.toNat := by
      rw [← hct, digitsVal_natChars]
    rw [hval]
    have : ((i.toNat : Nat) : Int) = i := by omega
    rw [this]

/-- A character that can open a printed value: anything but a closer. -/
def openerOk (c : Char) : Bool := !(c = ']' || c = '}')

theorem openerOk_ne (c : Char) (h : openerOk c = true) : ¬(c = ']') ∧ ¬(c = '}') := by
  constructor <;> intro he <;> subst he <;> exact absurd h (by decide)

theorem printV_head (j : JValue) :
    ∃ c t, printV j = c :: t ∧ openerOk c = true := by
  cases j with
  | int i =>
      by_cases hneg : i < 0
      · rw [printV, intChars, if_pos hneg]
        exact ⟨_, _, rfl, rfl⟩
      · obtain ⟨c, t, hct, hdig⟩ := natChars_head i.toNat
        rw [printV, intChars, if_neg hneg, hct]
        refine ⟨c, t, rfl, ?_⟩
        have hne1 := isDig_ne hdig ']' (by decide)
        have hne2 := isDig_ne hdig '}' (by decide)
        simp [openerOk, hne1, hne2]
  | null => exact ⟨_, _, rfl, rfl⟩
  | str s => exact ⟨_, _, rfl, rfl⟩
  | arr es => exact ⟨_, _, rfl, rfl⟩
  | obj ms => exact ⟨_, _, rfl, rfl⟩
  | bool b => cases b with
      | false => exact ⟨_, _, rfl, rfl⟩
      | true => exact ⟨_, _, rfl, rfl⟩

theorem parseV_arr_step (f : Nat) (c : Char) (tt : List Char) (hbr : ¬(c = ']')) :
    parseV (f + 1) ('[' :: c :: tt)
      = (match parseItems f (c :: tt) with
         | some (es, r2) => some (.arr es, r2)
         | none => none) := by
  simp [parseV, hbr]

theorem parseV_obj_step (f : Nat) (tt : List Char) :
    parseV (f + 1) ('{' :: '"' :: tt)
      = (match parsePairs f ('"' :: tt) with
         | some (ms, r2) => some (.obj ms, r2)
         | none => none) := by
  simp [parseV]

mutual
theorem rtV : ∀ (j : JValue) (fuel : Nat) (rest : List Char),
    (printV j).length < fuel → numStop rest = true →
    parseV fuel (printV j ++ rest) = some (j, rest)
  | .null, fuel, rest, hf, _ => by
      match fuel, hf with
      | f + 1, _ => simp [printV, parseV]
  | .bool true, fuel, rest, hf, _ => by
      match fuel, hf with
      | f + 1, _ => simp [printV, parseV]
  | .bool false, fuel, rest, hf, _ => by
      match fuel, hf with
      | f + 1, _ => simp [printV, parseV]
  | .int i, fuel, rest, hf, hrest => by
      match fuel, hf with
      | f + 1, _ => exact parseV_int i f rest hrest
  | .str s, fuel, rest, hf, _ => by
      match fuel, hf with
      | f + 1, _ =>
          have harg : printV (.str s) ++ rest
              = '"' :: (escBody s.data ++ ('"' :: rest)) := by
            simp [printV]
          rw [harg]
          simp [parseV, readStr_escBody]
  | .arr [], fuel, rest, hf, _ => by
      match fuel, hf with
      | f + 1, _ => simp [printV, printItems, parseV]
  | .arr (e :: es), fuel, rest, hf, _ => by
      match fuel, hf with
      | f + 1, hf =>
          obtain ⟨c, t, hct, hok⟩ := printV_head e
          have hbr := (openerOk_ne c hok).1
          have hlen : (printItems (e :: es)).length + 1 < f := by
            simp only [printV, List.length_cons, List.length_append] at hf
            omega
          have key := rtItems e es f rest hlen
          have harg : printV (.arr (e :: es)) ++ rest
              = '[' :: (printItems (e :: es) ++ (']' :: rest)) := by
            simp [printV]
          obtain ⟨tt, htt⟩ : ∃ tt, printItems (e :: es) ++ (']' :: rest) = c :: tt := by
            cases es with
            | nil => exact ⟨t ++ (']' :: rest), by simp [printItems, hct]⟩
            | cons x xs =>
                exact ⟨t ++ (',' :: printItems (x :: xs)) ++ (']' :: rest),
                  by simp [printItems, hct]⟩
          rw [harg, htt, parseV_arr_step f c tt hbr, ← htt, key]
  | .obj [], fuel, rest, hf, _ => by
      match fuel, hf with
      | f + 1, _ => simp [printV, printPairs, parseV]
  | .obj ((k, v) :: ms), fuel, rest, hf, _ => by
      match fuel, hf with
      | f + 1, hf =>
          have hlen : (printPairs ((k, v) :: ms)).length + 1 < f := by
            simp only [printV, List.length_cons, List.length_append] at hf
            omega
          have key := rtPairs (k, v) ms f rest hlen
          have harg : printV (.obj ((k, v) :: ms)) ++ rest
              = '{' :: (printPairs ((k, v) :: ms) ++ ('}' :: rest)) := by
            simp [printV]
          obtain ⟨tt, htt⟩ : ∃ tt,
              printPairs ((k, v) :: ms) ++ ('}' :: rest) = '"' :: tt := by
            cases ms with
            | nil =>
                exact ⟨escBody k.data ++ ('"' :: (':' :: (printV v ++ ('}' :: rest)))),
                  by simp [printPairs]⟩
            | cons p ps =>
                exact ⟨escBody k.data ++ ('"' :: (':' :: (printV v
                    ++ (',' :: (printPairs (p :: ps) ++ ('}' :: rest)))))),
                  by simp [printPairs]⟩
          rw [harg, htt, parseV_obj_step f tt, ← htt, key]
  termination_by j _ _ _ _ => sizeOf j

theorem rtItems : ∀ (e : JValue) (es : List JValue) (fuel : Nat) (rest : List Char),
    (printItems (e :: es)).length + 1 < fuel →
    parseItems fuel (printItems (e :: es) ++ (']' :: rest)) = some (e :: es, rest)
  | e, [], fuel, rest, hf => by
      match fuel, hf with
      | f + 1, hf =>
          have hfe : (printV e).length < f := by
            simp only [printItems] at hf
            omega
          have hv := rtV e f (']' :: rest) hfe rfl
          simp only [printItems]
          simp only [parseItems, hv]
  | e, x :: xs, fuel, rest, hf => by
      match fuel, hf with
      | f + 1, hf =>
          simp only [printItems, List.length_append, List.length_cons] at hf
          have hfe : (printV e).length < f := by omega
          have hfx : (printItems (x :: xs)).length + 1 < f := by omega
          have hv := rtV e f (',' :: (printItems (x :: xs) ++ (']' :: rest))) hfe rfl
          have key := rtItems x xs f rest hfx
          have harg : printItems (e :: x :: xs) ++ (']' :: rest)
              = printV e ++ (',' :: (printItems (x :: xs) ++ (']' :: rest))) := by
            simp [printItems]
          rw [harg]
          simp only [parseItems, hv, key]
  termination_by e es _ _ _ => sizeOf e + sizeOf es

theorem rtPairs : ∀ (kv : String × JValue) (ms : List (String × JValue)) (fuel : Nat)
      (rest : List Char),
    (printPairs (kv :: ms)).length + 1 < fuel →
    parsePairs fuel (printPairs (kv :: ms) ++ ('}' :: rest)) = some (kv :: ms, rest)
  | (k, v), [], fuel, rest, hf => by
      match fuel, hf with
      | f + 1, hf =>
          have hfe : (printV v).length < f := by
            simp only [printPairs, List.length_cons, List.length_append] at hf
            omega
          have hv := rtV v f ('}' :: rest) hfe rfl
          have harg : printPairs ((k, v) :: []) ++ ('}' :: rest)
              = '"' :: (escBody k.data ++ ('"' :: (':' :: (printV v ++ ('}' :: rest))))) := by
            simp [printPairs]
          rw [harg]
          simp only [parsePairs, readStr_escBody, hv]
  | (k, v), (k2, v2) :: ps, fuel, rest, hf => by
      match fuel, hf with
      | f + 1, hf =>
          simp only [printPairs, List.length_cons, List.length_append] at hf
          have hfe : (printV v).length < f := by omega
          have hfx : (printPairs ((k2, v2) :: ps)).length + 1 < f := by omega
          have hv := rtV v f (',' :: (printPairs ((k2, v2) :: ps) ++ ('}' :: rest))) hfe rfl
          have key := rtPairs (k2, v2) ps f rest hfx
          have harg : printPairs ((k, v) :: (k2, v2) :: ps) ++ ('}' :: rest)
              = '"' :: (escBody k.data
                  ++ ('"' :: (':' :: (printV v
                      ++ (',' :: (printPairs ((k2, v2) :: ps) ++ ('}' :: rest))))))) := by
            simp [printPairs]
          rw [harg]
          simp only [parsePairs, readStr_escBody, hv, key]
  termination_by kv ms _ _ _ => sizeOf kv + sizeOf ms
end

/-- The codec round-trip for every JSON value the serializer can emit. -/
theorem loads_dumps (j : JValue) : loads (dumps j) = some j := by
  have hv := rtV j ((printV j).length + 1) [] (by omega) rfl
  rw [List.append_nil] at hv
  have hdata : (dumps j).data = printV j := rfl
  rw [loads, hdata, hv]

/-! ## Route handlers, from `src/app/app.py` and `src/server/app.py` -/

/-- A Python exception escaping a route handler (the framework turns it into
an HTTP 500 error page, not a handled JSON response). -/
inductive PyExc where
  | attributeError : String → PyExc
deriving Repr, DecidableEq

/-- An HTTP response: a JSON body and a status code. -/
structure HttpResponse where
  body : JValue
  status : Nat
deriving Repr

/-- `GET /games` (`games` in `src/app/app.py`): a hand-rolled four-field
summary of every game, built without `to_dict`. -/
def games_index (db : DB) : List JValue :=
  db.games.map (fun g =>
    .obj [("title", .str g.title), ("genre", .str g.genre),
          ("platform", .str g.platform), ("price", .int g.price)])

/-- `GET /games/<id>` (`game_by_id` in `src/app/app.py`): looks the game up
with `filter_by(id=id).first()` and calls `to_dict()` on the result without
any null check, so when the lookup returns `None` the attribute access
raises and no response is built. -/
def game_by_id (db : DB) (i : Nat) : Except PyExc HttpResponse :=
  match db.games.find? (fun g => g.id == i) with
  | none => .error (.attributeError "to_dict")
  | some g =>
      match to_dict db (.game g) with
      | none => .error (.attributeError "to_dict")
      | some j => .ok ⟨j, 200⟩

/-- Modelled from the spec: the `Newsletter` model — `src/server/app.py`
imports it from its `models` module, but that file is not among the
repository sources.  Per the spec's data model it carries an identifier,
a title and a body. -/
structure Newsletter where
  id : Nat
  title : String
  body : String
deriving Repr, DecidableEq

/-- The newsletter service's database. -/
structure NewsDB where
  newsletters : List Newsletter
deriving Repr, DecidableEq

/-- Modelled from the spec: `Newsletter.to_dict` — the model declares no
relationships, so its serialization is exactly its columns. -/
def newsletter_to_dict (n : Newsletter) : JValue :=
  .obj [("id", .int n.id), ("title", .str n.title), ("body", .str n.body)]

/-- The autoincrement primary key the database assigns on insert. -/
def nextId (db : NewsDB) : Nat :=
  (db.newsletters.foldr (fun n m => max n.id m) 0) + 1

/-- `POST /newsletters` (`Newsletters.post` in `src/server/app.py`): build a
record from the `title` and `body` form fields, add and commit it, and
respond with its serialization and status 201. -/
def newsletters_post (db : NewsDB) (title body : String) :
    NewsDB × HttpResponse :=
  let nr : Newsletter := ⟨nextId db, title, body⟩
  (⟨db.newsletters ++ [nr]⟩, ⟨newsletter_to_dict nr, 201⟩)

/-- `GET /newsletters/<id>` (`NewsletterByID.get` in `src/server/app.py`):
`filter_by(id=id).first().to_dict()` with no null check, so an absent id
makes the attribute access raise. -/
def newsletter_by_id (db : NewsDB) (i : Nat) : Except PyExc HttpResponse :=
  match db.newsletters.find? (fun n => n.id == i) with
  | none => .error (.attributeError "to_dict")
  | some n => .ok ⟨newsletter_to_dict n, 200⟩

/-- Serialization as the routes run it, with the database threaded as
explicit state. -/
def to_dict_run (e : Entity) (db : DB) : Option JValue × DB :=
  toDictAuxSt fuelBound [] e db

/-! ## Concrete witness data (the spec's §8 scenario) -/

def wGame : Game := ⟨1, "Legend of X", "Action RPG", "PC", 40, none, none⟩

def wUser : User := ⟨1, "Alice", none, none⟩

def wReview : Review := ⟨1, 8, "Great game", none, none, 1, 1⟩

def wDB : DB := ⟨[wGame], [wReview], [wUser]⟩

/-- The same rows with the `reviews` table empty. -/
def wDB0 : DB := ⟨[wGame], [], [wUser]⟩

/-! ## The claims -/

/-- C1: serialization of any entity terminates.  `to_dict` runs the
traversal with the nesting budget `fuelBound` read off the declared
exclusion-rule sets alone (it is 3), and with that budget the traversal
succeeds on every entity of every database — however many rows the data's
Game↔Review↔User cycles contain — because each rule set cuts every cycle
one relationship edge deep. -/
theorem c1_serialization_terminates (db : DB) (e : Entity) :
    (to_dict db e).isSome = true := by
  cases e with
  | game g => rw [to_dict_game_eq]; rfl
  | review r => rw [to_dict_review_eq]; rfl
  | user u => rw [to_dict_user_eq]; rfl

/-- C2: serializing any `Game` yields a mapping with the scalar fields
`title`, `genre`, `platform`, `price`, and a `reviews` field holding a
sequence of serialized `Review` mappings none of which has a `game`
field. -/
theorem c2_game_serialization (db : DB) (g : Game) :
    ∃ fields, to_dict db (.game g) = some (.obj fields)
      ∧ getF fields "title" = some (.str g.title)
      ∧ getF fields "genre" = some (.str g.genre)
      ∧ getF fields "platform" = some (.str g.platform)
      ∧ getF fields "price" = some (.int g.price)
      ∧ ∃ rs, getF fields "reviews" = some (.arr rs)
          ∧ ∀ j ∈ rs, ∃ rf, j = .obj rf ∧ getF rf "game" = none := by
  have h := to_dict_game_eq db g
  simp only [gameDict] at h
  refine ⟨_, h, ?_, ?_, ?_, ?_,
    (gameReviews db g).map (reviewInGame db), ?_, ?_⟩
  · rfl
  · rfl
  · rfl
  · rfl
  · rfl
  intro j hj
  obtain ⟨r, _, rfl⟩ := List.mem_map.mp hj
  exact ⟨columns (.review r)
      ++ [("user", (reviewUser db r).elim JValue.null userShallow)], rfl, rfl⟩

/-- C2 witness: the spec's concrete scenario, through `c2_game_serialization`. -/
theorem c2_witness :
    ∃ fields, to_dict wDB (.game wGame) = some (.obj fields)
      ∧ getF fields "title" = some (.str wGame.title)
      ∧ getF fields "genre" = some (.str wGame.genre)
      ∧ getF fields "platform" = some (.str wGame.platform)
      ∧ getF fields "price" = some (.int wGame.price)
      ∧ ∃ rs, getF fields "reviews" = some (.arr rs)
          ∧ ∀ j ∈ rs, ∃ rf, j = .obj rf ∧ getF rf "game" = none :=
  c2_game_serialization wDB wGame

/-- C3: serializing any `Review` whose two foreign keys resolve yields a
mapping whose `game` field is a serialized `Game` mapping with no `reviews`
field and whose `user` field is a serialized `User` mapping with no
`reviews` field. -/
theorem c3_review_serialization (db : DB) (r : Review) (g : Game) (u : User)
    (hg : reviewGame db r = some g) (hu : reviewUser db r = some u) :
    ∃ fields, to_dict db (.review r) = some (.obj fields)
      ∧ (∃ gf, getF fields "game" = some (.obj gf) ∧ getF gf "reviews" = none)
      ∧ (∃ uf, getF fields "user" = some (.obj uf) ∧ getF uf "reviews" = none) := by
  have h := to_dict_review_eq db r
  simp only [reviewDict] at h
  refine ⟨_, h, ⟨columns (.game g), ?_, rfl⟩, ⟨columns (.user u), ?_, rfl⟩⟩
  · rw [hg]
    rfl
  · rw [hu]
    rfl

/-- C3 witness: the spec's concrete scenario, hypotheses discharged on
`wDB`. -/
theorem c3_witness :
    (reviewGame wDB wReview = some wGame ∧ reviewUser wDB wReview = some wUser)
    ∧ (∃ fields, to_dict wDB (.review wReview) = some (.obj fields)
        ∧ (∃ gf, getF fields "game" = some (.obj gf) ∧ getF gf "reviews" = none)
        ∧ (∃ uf, getF fields "user" = some (.obj uf) ∧ getF uf "reviews" = none)) :=
  ⟨⟨rfl, rfl⟩, c3_review_serialization wDB wReview wGame wUser rfl rfl⟩

/-- C4: serializing any `User` yields a mapping whose `reviews` field is a
sequence of serialized `Review` mappings none of which has a `user`
field. -/
theorem c4_user_serialization (db : DB) (u : User) :
    ∃ fields, to_dict db (.user u) = some (.obj fields)
      ∧ ∃ rs, getF fields "reviews" = some (.arr rs)
          ∧ ∀ j ∈ rs, ∃ rf, j = .obj rf ∧ getF rf "user" = none := by
  have h := to_dict_user_eq db u
  simp only [userDict] at h
  refine ⟨_, h, (userReviews db u).map (reviewInUser db), ?_, ?_⟩
  · rfl
  intro j hj
  obtain ⟨r, _, rfl⟩ := List.mem_map.mp hj
  exact ⟨columns (.review r)
      ++ [("game", (reviewGame db r).elim JValue.null gameShallow)], rfl, rfl⟩

/-- C4 witness: the spec's concrete scenario, through `c4_user_serialization`. -/
theorem c4_witness :
    ∃ fields, to_dict wDB (.user wUser) = some (.obj fields)
      ∧ ∃ rs, getF fields "reviews" = some (.arr rs)
          ∧ ∀ j ∈ rs, ∃ rf, j = .obj rf ∧ getF rf "user" = none :=
  c4_user_serialization wDB wUser

/-- C5: what the code actually does on a missing identifier.  Both
identifier routes call `.to_dict()` on the `first()` result without a null
check, so a lookup that finds nothing raises `AttributeError` (an unhandled
exception, surfaced by the framework as HTTP 500) instead of the
404-equivalent not-found response the claim describes; no partial or
placeholder mapping is ever returned. -/
theorem c5_missing_id_raises :
    game_by_id ⟨[], [], []⟩ 1 = .error (.attributeError "to_dict")
      ∧ newsletter_by_id ⟨[]⟩ 1 = .error (.attributeError "to_dict") :=
  ⟨rfl, rfl⟩

/-- C6: an entity whose to-many `reviews` relationship is empty serializes
it as a present key holding an empty sequence — not null and not an
omitted key. -/
theorem c6_empty_relationship (db : DB) (g : Game) (u : User)
    (hg : gameReviews db g = []) (hu : userReviews db u = []) :
    (∃ fields, to_dict db (.game g) = some (.obj fields)
        ∧ getF fields "reviews" = some (.arr []))
    ∧ (∃ fields, to_dict db (.user u) = some (.obj fields)
        ∧ getF fields "reviews" = some (.arr [])) := by
  constructor
  · have h := to_dict_game_eq db g
    simp only [gameDict, hg, List.map_nil] at h
    exact ⟨_, h, rfl⟩
  · have h := to_dict_user_eq db u
    simp only [userDict, hu, List.map_nil] at h
    exact ⟨_, h, rfl⟩

/-- C6 witness: hypotheses discharged on a database whose `reviews` table is
empty. -/
theorem c6_witness :
    (gameReviews wDB0 wGame = [] ∧ userReviews wDB0 wUser = [])
    ∧ ((∃ fields, to_dict wDB0 (.game wGame) = some (.obj fields)
          ∧ getF fields "reviews" = some (.arr []))
      ∧ (∃ fields, to_dict wDB0 (.user wUser) = some (.obj fields)
          ∧ getF fields "reviews" = some (.arr []))) :=
  ⟨⟨rfl, rfl⟩, c6_empty_relationship wDB0 wGame wUser rfl rfl⟩

/-- C7: the serialize–encode–decode round trip is the identity on the
serialized mapping: whatever mapping `to_dict` produces, encoding it to
JSON text and decoding that text yields the same mapping. -/
theorem c7_roundtrip (db : DB) (e : Entity) (j : JValue)
    (_h : to_dict db e = some j) : loads (dumps j) = some j :=
  loads_dumps j

/-- C7 witness: the round trip on the spec scenario's serialized game,
hypothesis discharged by the game closed form. -/
theorem c7_witness :
    to_dict wDB (.game wGame) = some (gameDict wDB wGame)
      ∧ loads (dumps (gameDict wDB wGame)) = some (gameDict wDB wGame) :=
  ⟨to_dict_game_eq wDB wGame,
   c7_roundtrip wDB (.game wGame) (gameDict wDB wGame) (to_dict_game_eq wDB wGame)⟩

/-- C8: serialization is a pure read: run as an explicit state transformer
over the database, `to_dict` returns the database it was given — every
scalar field and relationship link unchanged — together with exactly the
value the pure traversal computes, resolving relationships only against
that same database. -/
theorem c8_serialization_pure (db : DB) (e : Entity) :
    to_dict_run e db = (to_dict db e, db) :=
  toDictAuxSt_eq fuelBound [] e db

/-- C9: `GET /games` returns, for every stored game, a mapping with exactly
the four fields `title`, `genre`, `platform`, `price` (no `id`, no
timestamps, no `reviews`), while `GET /games/<id>` responds with the full
serialization of the found game, `id`, timestamps and `reviews` included. -/
theorem c9_index_vs_by_id (db : DB) :
    (∀ j ∈ games_index db, ∃ g, g ∈ db.games ∧
        j = .obj [("title", .str g.title), ("genre", .str g.genre),
                  ("platform", .str g.platform), ("price", .int g.price)])
    ∧ (∀ (i : Nat) (g : Game), db.games.find? (fun g2 => g2.id == i) = some g →
        ∃ fields, game_by_id db i = .ok ⟨.obj fields, 200⟩
          ∧ getF fields "id" = some (.int g.id)
          ∧ getF fields "created_at" = some (optStr g.created_at)
          ∧ getF fields "updated_at" = some (optStr g.updated_at)
          ∧ getF fields "reviews"
              = some (.arr ((gameReviews db g).map (reviewInGame db)))) := by
  constructor
  · intro j hj
    obtain ⟨g, hg, rfl⟩ := List.mem_map.mp hj
    exact ⟨g, hg, rfl⟩
  · intro i g hfind
    have h := to_dict_game_eq db g
    simp only [gameDict] at h
    refine ⟨columns (.game g)
        ++ [("reviews", .arr ((gameReviews db g).map (reviewInGame db)))],
      ?_, ?_, ?_, ?_, ?_⟩
    · simp only [game_by_id, hfind, h]
    · rfl
    · rfl
    · rfl
    · rfl

/-- The four-field summary `GET /games` builds for the witness game. -/
def wGameSummary : JValue :=
  .obj [("title", .str wGame.title), ("genre", .str wGame.genre),
        ("platform", .str wGame.platform), ("price", .int wGame.price)]

/-- C9 witness: both conjuncts instantiated on `wDB`. -/
theorem c9_witness :
    (wGameSummary ∈ games_index wDB
      ∧ ∃ g, g ∈ wDB.games ∧ wGameSummary
          = JValue.obj [("title", .str g.title), ("genre", .str g.genre),
                        ("platform", .str g.platform), ("price", .int g.price)])
    ∧ (wDB.games.find? (fun g2 => g2.id == 1) = some wGame
      ∧ ∃ fields, game_by_id wDB 1 = .ok ⟨.obj fields, 200⟩
          ∧ getF fields "id" = some (.int wGame.id)
          ∧ getF fields "created_at" = some (optStr wGame.created_at)
          ∧ getF fields "updated_at" = some (optStr wGame.updated_at)
          ∧ getF fields "reviews"
              = some (.arr ((gameReviews wDB wGame).map (reviewInGame wDB)))) := by
  have hmem : wGameSummary ∈ games_index wDB := List.mem_singleton.mpr rfl
  exact ⟨⟨hmem, (c9_index_vs_by_id wDB).1 wGameSummary hmem⟩,
    ⟨rfl, (c9_index_vs_by_id wDB).2 1 wGame rfl⟩⟩

/-- C10: `POST /newsletters` with form fields `title` and `body` appends
exactly one new record carrying those two values (every pre-existing record
untouched, in place), and responds with the new record's serialization and
status 201. -/
theorem c10_newsletters_post (db : NewsDB) (t b : String) :
    (newsletters_post db t b).2.status = 201
    ∧ (newsletters_post db t b).1.newsletters
        = db.newsletters ++ [⟨nextId db, t, b⟩]
    ∧ (newsletters_post db t b).2.body = newsletter_to_dict ⟨nextId db, t, b⟩
    ∧ ∃ fields, (newsletters_post db t b).2.body = .obj fields
        ∧ getF fields "title" = some (.str t)
        ∧ getF fields "body" = some (.str b) :=
  ⟨rfl, rfl, rfl, [("id", .int (nextId db)), ("title", .str t), ("body", .str b)],
    rfl, rfl, rfl⟩
